import Mathlib

/-!
# Verification of the scan-pimping document rectification pipeline

A shallow embedding of `src/image_enhancer.py` / `src/pdf_enhancer.py`
(the two files share the geometry helpers and `process_image_cv` verbatim)
together with theorems settling the specification claims.

Modelling conventions:
* Pixel coordinates and edge lengths are idealised as real numbers
  (the Python code works with `float32`/`float64`).
* Contour coordinates and areas on the detector side are rationals:
  `cv2.findContours` yields integer pixel coordinates and
  `cv2.contourArea` is the shoelace formula, so all detector arithmetic
  is exact rational arithmetic.
* The opaque OpenCV kernels (Gaussian blur, Canny, contour extraction,
  Douglas-Peucker approximation, cubic resampling, luma conversion,
  Gaussian-weighted local mean) are parameters of the model, bundled in
  `CVOps`; the repository's own control flow, arithmetic and the
  structural contracts of the OpenCV calls it makes (output sizes,
  channel counts, and the `THRESH_BINARY` branch) are embedded directly.
-/

namespace ScanPimping

/-- A 2-D point in image pixel space, `(x, y)`. -/
abbrev Point : Type := ℝ × ℝ

/-- `distance(p1, p2)` from `image_enhancer.py`:
`np.linalg.norm(p1 - p2)`, the Euclidean distance. -/
noncomputable def distance (p1 p2 : Point) : ℝ :=
  Real.sqrt ((p1.1 - p2.1) ^ 2 + (p1.2 - p2.2) ^ 2)

/-- `s = pts.sum(axis=1)`: the coordinate sum `x + y` of a point. -/
def sumXY (p : Point) : ℝ := p.1 + p.2

/-- `diff = np.diff(pts, axis=1)`: `np.diff` subtracts column 0 from
column 1, so the key is `y - x` (the code comment claims `x - y`, but
`np.diff` computes the opposite sign). -/
def diffYX (p : Point) : ℝ := p.2 - p.1

/-- `np.argmin` over a 4-vector: the first index attaining the minimum
(a scan that replaces the current best only on a strictly smaller
value). -/
noncomputable def argmin4 (v : Fin 4 → ℝ) : Fin 4 :=
  let i1 : Fin 4 := if v 1 < v 0 then 1 else 0
  let i2 : Fin 4 := if v 2 < v i1 then 2 else i1
  if v 3 < v i2 then 3 else i2

/-- `np.argmax` over a 4-vector: the first index attaining the maximum
(a scan that replaces the current best only on a strictly larger
value). -/
noncomputable def argmax4 (v : Fin 4 → ℝ) : Fin 4 :=
  let i1 : Fin 4 := if v 0 < v 1 then 1 else 0
  let i2 : Fin 4 := if v i1 < v 2 then 2 else i1
  if v i2 < v 3 then 3 else i2

/-- `order_rect(pts)` from `image_enhancer.py` lines 57-70:
`rect[0] = pts[np.argmin(s)]`, `rect[1] = pts[np.argmin(diff)]`,
`rect[2] = pts[np.argmax(s)]`, `rect[3] = pts[np.argmax(diff)]`
with `s = x + y` and `diff = y - x` (see `diffYX`). -/
noncomputable def order_rect (pts : Fin 4 → Point) : Fin 4 → Point :=
  fun j =>
    match j with
    | ⟨0, _⟩ => pts (argmin4 (fun i => sumXY (pts i)))
    | ⟨1, _⟩ => pts (argmin4 (fun i => diffYX (pts i)))
    | ⟨2, _⟩ => pts (argmax4 (fun i => sumXY (pts i)))
    | ⟨3, _⟩ => pts (argmax4 (fun i => diffYX (pts i)))

/-- Convenience constructor for a 4-point input (the rows of the
`(4, 2)` numpy array fed to `order_rect`). -/
def mkQuad (a b c d : Point) : Fin 4 → Point := fun j =>
  match j with
  | ⟨0, _⟩ => a
  | ⟨1, _⟩ => b
  | ⟨2, _⟩ => c
  | ⟨3, _⟩ => d

/-! ## Raster images and the opaque OpenCV kernels -/

/-- A raster image: a `width × height` buffer with a channel count.
The pixel buffer is an abstract flattened map from index to 8-bit
sample value (idealised as `ℕ`). -/
structure Image where
  width : ℕ
  height : ℕ
  channels : ℕ
  data : ℕ → ℕ

/-- The opaque OpenCV resampling/extraction kernels used by
`process_image_cv`.  Each field stands for the pixel-level computation
of one external call; the repository only composes them, so they are
parameters of the model. -/
structure CVOps where
  /-- `cv2.GaussianBlur(image, (5, 5), 0)`: the blurred pixel data. -/
  blurData : Image → ℕ → ℕ
  /-- `cv2.Canny(blurred, 10, 50)`: the edge-map pixel data. -/
  cannyData : Image → ℕ → ℕ
  /-- `cv2.findContours(edges, RETR_EXTERNAL, CHAIN_APPROX_SIMPLE)`:
  the outer boundaries, as polygons with (integer-valued) rational
  pixel coordinates. -/
  findContours : Image → List (List (ℚ × ℚ))
  /-- `cv2.approxPolyDP(c, 0.02 * cv2.arcLength(c, True), True)`:
  Douglas-Peucker simplification of a contour with 2 % of its
  perimeter as tolerance. -/
  approxPoly : List (ℚ × ℚ) → List (ℚ × ℚ)
  /-- `cv2.getPerspectiveTransform(rect, dst)` followed by
  `cv2.warpPerspective(image, M, (maxWidth, maxHeight))`: the resampled
  pixel data of the warp (the homography and the destination rectangle
  are determined by the ordered corners). -/
  warpData : Image → (Fin 4 → Point) → ℕ → ℕ
  /-- `cv2.resize(warped, (0, 0), fx=f, fy=f, interpolation=INTER_CUBIC)`:
  the cubic-interpolated pixel data. -/
  resizeData : Image → ℕ → ℕ → ℕ
  /-- `cv2.cvtColor(upscaled, COLOR_BGR2GRAY)`: the luma pixel data. -/
  grayData : Image → ℕ → ℕ
  /-- The `ADAPTIVE_THRESH_GAUSSIAN_C` local reference value with
  `blockSize=91`, `C=30`: the Gaussian-weighted mean of the 91×91
  neighbourhood of a pixel, minus 30. -/
  localThreshold : Image → ℕ → ℕ

/-- `cv2.GaussianBlur(image, (5, 5), 0)`: same size and channels. -/
def gaussianBlur (ops : CVOps) (img : Image) : Image :=
  { img with data := ops.blurData img }

/-- `cv2.Canny(blurred, 10, 50)`: a single-channel edge map of the same
size. -/
def canny (ops : CVOps) (img : Image) : Image :=
  ⟨img.width, img.height, 1, ops.cannyData img⟩

/-- `cv2.resize(warped, (0, 0), fx=f, fy=f, interpolation=INTER_CUBIC)`:
both dimensions are multiplied by the (integer) scale factor. -/
def resize (ops : CVOps) (img : Image) (f : ℕ) : Image :=
  ⟨f * img.width, f * img.height, img.channels, ops.resizeData img f⟩

/-- `cv2.cvtColor(upscaled, COLOR_BGR2GRAY)`: single channel, same
size. -/
def cvtGray (ops : CVOps) (img : Image) : Image :=
  ⟨img.width, img.height, 1, ops.grayData img⟩

/-- `cv2.adaptiveThreshold(gray, 255, ADAPTIVE_THRESH_GAUSSIAN_C,
THRESH_BINARY, blockSize=91, C=30)`: each output pixel is 255 where the
source pixel exceeds the local Gaussian-weighted reference value and 0
otherwise, same size and channel count as the (single-channel)
source. -/
def adaptiveThreshold (ops : CVOps) (img : Image) : Image :=
  ⟨img.width, img.height, img.channels,
    fun i => if ops.localThreshold img i < img.data i then 255 else 0⟩

/-! ## The document contour detector -/

/-- The cyclic shoelace sum of a polygon's vertices. -/
def shoelace (l : List (ℚ × ℚ)) : ℚ :=
  ((l.zip (l.rotate 1)).map (fun pq => pq.1.1 * pq.2.2 - pq.2.1 * pq.1.2)).sum

/-- `cv2.contourArea(c)`: the absolute shoelace area of the polygon. -/
def contourArea (l : List (ℚ × ℚ)) : ℚ := |shoelace l| / 2

/-- The acceptance test of the scan loop (`image_enhancer.py` line 216):
`len(approx) == 4 and cv2.contourArea(approx) > area_threshold_ratio * img_area`
(with `approxFn` standing for the `approxPolyDP` call of line 211). -/
def Qualifies (approxFn : List (ℚ × ℚ) → List (ℚ × ℚ)) (thr imgArea : ℚ)
    (c : List (ℚ × ℚ)) : Prop :=
  (approxFn c).length = 4 ∧ thr * imgArea < contourArea (approxFn c)

instance decQualifies (approxFn : List (ℚ × ℚ) → List (ℚ × ℚ)) (thr imgArea : ℚ)
    (c : List (ℚ × ℚ)) : Decidable (Qualifies approxFn thr imgArea c) :=
  inferInstanceAs (Decidable (_ ∧ _))

/-- The comparison used by
`sorted(contours, key=cv2.contourArea, reverse=True)`:
descending contour area. -/
def areaDesc (c d : List (ℚ × ℚ)) : Prop := contourArea d ≤ contourArea c

instance decAreaDesc : DecidableRel areaDesc := fun c d =>
  inferInstanceAs (Decidable (contourArea d ≤ contourArea c))

instance totalAreaDesc : IsTotal (List (ℚ × ℚ)) areaDesc :=
  ⟨fun c d => (le_total (contourArea d) (contourArea c) :
    areaDesc c d ∨ areaDesc d c)⟩

instance transAreaDesc : IsTrans (List (ℚ × ℚ)) areaDesc :=
  ⟨fun _ _ _ h h' => le_trans h' h⟩

/-- The scan loop of `process_image_cv` (lines 198-219): sort the
contours by area, largest first, and return the first contour whose
polygon approximation has 4 vertices and strictly more than
`thr * imgArea` enclosed area. -/
def selectContour (approxFn : List (ℚ × ℚ) → List (ℚ × ℚ))
    (contours : List (List (ℚ × ℚ))) (thr imgArea : ℚ) :
    Option (List (ℚ × ℚ)) :=
  (contours.insertionSort areaDesc).find?
    (fun c => decide (Qualifies approxFn thr imgArea c))

/-- The value bound to `screenCnt` when the loop selects a contour:
`approx.reshape(4, 2)`, i.e. the approximated polygon of the selected
contour. -/
def findDocContour (approxFn : List (ℚ × ℚ) → List (ℚ × ℚ))
    (contours : List (List (ℚ × ℚ))) (thr imgArea : ℚ) :
    Option (List (ℚ × ℚ)) :=
  (selectContour approxFn contours thr imgArea).map approxFn

/-- `approx.reshape(4, 2)` read as four corner points (the detector
only ever reshapes length-4 polygons, so the default is never used on
selected contours). -/
def quadToPts (q : List (ℚ × ℚ)) : Fin 4 → Point := fun i =>
  (((q.getD i (0, 0)).1 : ℝ), ((q.getD i (0, 0)).2 : ℝ))

/-! ## The rectifier, enhancer and the pipeline -/

/-- `four_point_transform(image, pts)` from `image_enhancer.py`
lines 72-128: order the corners, take the larger of the two opposite
edge lengths on each axis truncated to an integer (`int(max(...))`),
and resample through the homography into a `maxWidth × maxHeight`
buffer. -/
noncomputable def four_point_transform (ops : CVOps) (image : Image)
    (pts : Fin 4 → Point) : Image :=
  let rect := order_rect pts
  let widthA := distance (rect 2) (rect 3)
  let widthB := distance (rect 1) (rect 0)
  let maxWidth := (⌊max widthA widthB⌋).toNat
  let heightA := distance (rect 1) (rect 2)
  let heightB := distance (rect 0) (rect 3)
  let maxHeight := (⌊max heightA heightB⌋).toNat
  ⟨maxWidth, maxHeight, image.channels, ops.warpData image rect⟩

/-- Steps 1-2 of `process_image_cv`: blur, edge-detect, extract
contours and run the scan loop; returns `screenCnt`. -/
def detectDoc (ops : CVOps) (image : Image) (thr : ℚ) :
    Option (List (ℚ × ℚ)) :=
  let imgArea : ℚ := (image.height : ℚ) * (image.width : ℚ)
  let blurred := gaussianBlur ops image
  let edges := canny ops blurred
  let contours := ops.findContours edges
  findDocContour ops.approxPoly contours thr imgArea

/-- Step 3 of `process_image_cv` (lines 225-232): warp when `screenCnt`
is not `None`, otherwise pass the input image through unchanged. -/
noncomputable def rectify (ops : CVOps) (image : Image) (thr : ℚ) : Image :=
  match detectDoc ops image thr with
  | some q => four_point_transform ops image (quadToPts q)
  | none => image

/-- Steps 4-5 of `process_image_cv` (lines 241-267): upscale, convert
to grayscale, adaptive-threshold. -/
def enhanceStage (ops : CVOps) (img : Image) (f : ℕ) : Image :=
  adaptiveThreshold ops (cvtGray ops (resize ops img f))

/-- `process_image_cv(image, area_threshold_ratio, upscale_factor)`:
the full pipeline.  The function body performs no validation of the
image or of the configuration. -/
noncomputable def process_image_cv (ops : CVOps) (image : Image)
    (thr : ℚ) (f : ℕ) : Image :=
  enhanceStage ops (rectify ops image thr) f

/-! ## CLI validation and the PDF path -/

/-- The parameter validation in `image_enhancer.py`'s `main`
(lines 460-470): `0.1 <= area_threshold <= 1.0`,
`1 <= upscale <= 5`, `1 <= quality <= 100`.  This code lives in the
command-line entry point, not in `process_image_cv`. -/
def validateArgs (areaThreshold : ℚ) (upscale quality : ℤ) : Bool :=
  decide (1 / 10 ≤ areaThreshold ∧ areaThreshold ≤ 1) &&
    decide (1 ≤ upscale ∧ upscale ≤ 5) &&
    decide (1 ≤ quality ∧ quality ≤ 100)

/-- The opaque PDF codec collaborators used by `pdf_enhancer.py`. -/
structure PDFOps where
  /-- `pdf_to_images_in_memory(pdf_path, dpi)`: one BGR raster per
  page. -/
  pdfToImages : String → ℕ → List Image

/-- `enhance_pdf_from_path(pdf_path, output_path, dpi=200)` from
`pdf_enhancer.py` lines 373-407: rasterise each page, run
`process_image_cv(img)` on it — with the default configuration
`area_threshold_ratio=0.4`, `upscale_factor=2`, the signature exposing
no way to change them — and hand the pages, in order, to the PDF
encoder.  Modelled as returning the output path together with the
ordered processed pages that are written. -/
noncomputable def enhance_pdf_from_path (pops : PDFOps) (ops : CVOps)
    (pdfPath outputPath : String) (dpi : ℕ) : String × List Image :=
  let images := pops.pdfToImages pdfPath dpi
  let processed := images.map (fun img => process_image_cv ops img (2 / 5) 2)
  (outputPath, processed)

/-! ## Helper lemmas -/

lemma fin4_cases (i : Fin 4) : i = 0 ∨ i = 1 ∨ i = 2 ∨ i = 3 := by
  fin_cases i <;> simp

/-- `np.argmin` attains the minimum of the scanned values. -/
lemma argmin4_le (v : Fin 4 → ℝ) (j : Fin 4) : v (argmin4 v) ≤ v j := by
  rcases fin4_cases j with rfl | rfl | rfl | rfl <;>
    · simp only [argmin4]
      split_ifs <;> linarith

/-- `np.argmax` attains the maximum of the scanned values. -/
lemma le_argmax4 (v : Fin 4 → ℝ) (j : Fin 4) : v j ≤ v (argmax4 v) := by
  rcases fin4_cases j with rfl | rfl | rfl | rfl <;>
    · simp only [argmax4]
      split_ifs <;> linarith

/-- When the minimum is attained at a unique index, `np.argmin` returns
that index. -/
lemma argmin4_eq_of_lt (v : Fin 4 → ℝ) (k : Fin 4)
    (h : ∀ j, j ≠ k → v k < v j) : argmin4 v = k := by
  by_contra hne
  exact absurd (argmin4_le v k) (not_le.2 (h _ hne))

/-- When the maximum is attained at a unique index, `np.argmax` returns
that index. -/
lemma argmax4_eq_of_lt (v : Fin 4 → ℝ) (k : Fin 4)
    (h : ∀ j, j ≠ k → v j < v k) : argmax4 v = k := by
  by_contra hne
  exact absurd (le_argmax4 v k) (not_le.2 (h _ hne))

/-- `np.argmin` is stable under permuting the scanned values when the
values are pairwise distinct. -/
lemma argmin4_comp_perm (v : Fin 4 → ℝ) (σ : Equiv.Perm (Fin 4))
    (hv : ∀ i j, v i = v j → i = j) :
    σ (argmin4 (fun i => v (σ i))) = argmin4 v := by
  apply hv
  apply le_antisymm
  · exact argmin4_le (fun i => v (σ i)) (σ.symm (argmin4 v)) |>.trans_eq
      (by rw [Equiv.apply_symm_apply])
  · exact argmin4_le v _

/-- `np.argmax` is stable under permuting the scanned values when the
values are pairwise distinct. -/
lemma argmax4_comp_perm (v : Fin 4 → ℝ) (σ : Equiv.Perm (Fin 4))
    (hv : ∀ i j, v i = v j → i = j) :
    σ (argmax4 (fun i => v (σ i))) = argmax4 v := by
  apply hv
  apply le_antisymm
  · exact le_argmax4 v _
  · exact (le_argmax4 (fun i => v (σ i)) (σ.symm (argmax4 v))).trans_eq'
      (by rw [Equiv.apply_symm_apply])

lemma mkQuad_zero (a b c d : Point) : mkQuad a b c d 0 = a := rfl

lemma mkQuad_one (a b c d : Point) : mkQuad a b c d 1 = b := rfl

lemma mkQuad_two (a b c d : Point) : mkQuad a b c d 2 = c := rfl

lemma mkQuad_three (a b c d : Point) : mkQuad a b c d 3 = d := rfl

lemma order_rect_zero (pts : Fin 4 → Point) :
    order_rect pts 0 = pts (argmin4 (fun i => sumXY (pts i))) := rfl

lemma order_rect_one (pts : Fin 4 → Point) :
    order_rect pts 1 = pts (argmin4 (fun i => diffYX (pts i))) := rfl

lemma order_rect_two (pts : Fin 4 → Point) :
    order_rect pts 2 = pts (argmax4 (fun i => sumXY (pts i))) := rfl

lemma order_rect_three (pts : Fin 4 → Point) :
    order_rect pts 3 = pts (argmax4 (fun i => diffYX (pts i))) := rfl

/-- Evaluating the Euclidean distance when the squared length is a
perfect square. -/
lemma distance_eq (p q : Point) (d : ℝ) (hd : 0 ≤ d)
    (h : (p.1 - q.1) ^ 2 + (p.2 - q.2) ^ 2 = d ^ 2) : distance p q = d := by
  rw [distance, h, Real.sqrt_sq hd]

/-- A successful `find?` splits the list at the returned element, with
the predicate failing on everything before it. -/
lemma find?_some_split {α : Type} (p : α → Bool) :
    ∀ (l : List α) (a : α), l.find? p = some a →
      p a = true ∧ ∃ l₁ l₂, l = l₁ ++ a :: l₂ ∧ ∀ x ∈ l₁, p x = false := by
  intro l
  induction l with
  | nil => intro a h; simp [List.find?] at h
  | cons b t ih =>
    intro a h
    by_cases hb : p b = true
    · rw [List.find?_cons_of_pos _ hb] at h
      obtain rfl : b = a := by injection h
      exact ⟨hb, [], t, rfl, by simp⟩
    · rw [List.find?_cons_of_neg _ hb] at h
      obtain ⟨hpa, l₁, l₂, rfl, hl₁⟩ := ih a h
      refine ⟨hpa, b :: l₁, l₂, rfl, ?_⟩
      intro x hx
      rcases List.mem_cons.mp hx with rfl | hx
      · exact Bool.eq_false_iff.mpr hb
      · exact hl₁ x hx

/-- The enhancement stage multiplies both dimensions by the upscale
factor. -/
lemma enhanceStage_width (ops : CVOps) (img : Image) (f : ℕ) :
    (enhanceStage ops img f).width = f * img.width := rfl

lemma enhanceStage_height (ops : CVOps) (img : Image) (f : ℕ) :
    (enhanceStage ops img f).height = f * img.height := rfl

/-- The enhancement stage always emits a single-channel image. -/
lemma enhanceStage_channels (ops : CVOps) (img : Image) (f : ℕ) :
    (enhanceStage ops img f).channels = 1 := rfl

/-- Every pixel emitted by the enhancement stage is 0 or 255. -/
lemma enhanceStage_binary (ops : CVOps) (img : Image) (f : ℕ) (i : ℕ) :
    (enhanceStage ops img f).data i = 0 ∨ (enhanceStage ops img f).data i = 255 := by
  unfold enhanceStage adaptiveThreshold
  dsimp only
  split_ifs <;> simp

/-! ## Claim C9 -/

/-- Four distinct collinear input points, used to exhibit the
corner-duplication behaviour of `order_rect`. -/
def collinearQuad : Fin 4 → Point :=
  mkQuad ((0 : ℝ), 0) ((1 : ℝ), 0) ((2 : ℝ), 0) ((3 : ℝ), 0)

/-- **C9.** There exist 4 pairwise-distinct input points (here 4
distinct collinear points) for which `order_rect`'s output is not a
permutation of its input: `(0,0)` appears as both the top-left and the
bottom-left entry, `(3,0)` as both the top-right and the bottom-right
entry, and `(1,0)` (likewise `(2,0)`) appears nowhere, because `(0,0)`
attains both the argmin of the coordinate sum and the argmax of the
coordinate difference, and `(3,0)` the two opposite extrema. -/
theorem order_rect_duplicates_a_corner :
    (collinearQuad 0 ≠ collinearQuad 1 ∧ collinearQuad 0 ≠ collinearQuad 2 ∧
      collinearQuad 0 ≠ collinearQuad 3 ∧ collinearQuad 1 ≠ collinearQuad 2 ∧
      collinearQuad 1 ≠ collinearQuad 3 ∧ collinearQuad 2 ≠ collinearQuad 3) ∧
    order_rect collinearQuad 0 = collinearQuad 0 ∧
    order_rect collinearQuad 1 = collinearQuad 3 ∧
    order_rect collinearQuad 2 = collinearQuad 3 ∧
    order_rect collinearQuad 3 = collinearQuad 0 ∧
    (order_rect collinearQuad 0 ≠ collinearQuad 1 ∧
      order_rect collinearQuad 1 ≠ collinearQuad 1 ∧
      order_rect collinearQuad 2 ≠ collinearQuad 1 ∧
      order_rect collinearQuad 3 ≠ collinearQuad 1) := by
  have hmin_s : argmin4 (fun i => sumXY (collinearQuad i)) = 0 := by
    apply argmin4_eq_of_lt
    intro j hj
    rcases fin4_cases j with rfl | rfl | rfl | rfl <;>
      first
      | exact absurd rfl hj
      | norm_num [collinearQuad, mkQuad_zero, mkQuad_one, mkQuad_two,
          mkQuad_three, sumXY]
  have hmax_s : argmax4 (fun i => sumXY (collinearQuad i)) = 3 := by
    apply argmax4_eq_of_lt
    intro j hj
    rcases fin4_cases j with rfl | rfl | rfl | rfl <;>
      first
      | exact absurd rfl hj
      | norm_num [collinearQuad, mkQuad_zero, mkQuad_one, mkQuad_two,
          mkQuad_three, sumXY]
  have hmin_d : argmin4 (fun i => diffYX (collinearQuad i)) = 3 := by
    apply argmin4_eq_of_lt
    intro j hj
    rcases fin4_cases j with rfl | rfl | rfl | rfl <;>
      first
      | exact absurd rfl hj
      | norm_num [collinearQuad, mkQuad_zero, mkQuad_one, mkQuad_two,
          mkQuad_three, diffYX]
  have hmax_d : argmax4 (fun i => diffYX (collinearQuad i)) = 0 := by
    apply argmax4_eq_of_lt
    intro j hj
    rcases fin4_cases j with rfl | rfl | rfl | rfl <;>
      first
      | exact absurd rfl hj
      | norm_num [collinearQuad, mkQuad_zero, mkQuad_one, mkQuad_two,
          mkQuad_three, diffYX]
  refine ⟨?_, ?_, ?_, ?_, ?_, ?_⟩
  · norm_num [collinearQuad, mkQuad_zero, mkQuad_one, mkQuad_two,
      mkQuad_three, Prod.ext_iff]
  · rw [order_rect_zero, hmin_s]
  · rw [order_rect_one, hmin_d]
  · rw [order_rect_two, hmax_s]
  · rw [order_rect_three, hmax_d]
  · rw [order_rect_zero, hmin_s, order_rect_one, hmin_d, order_rect_two,
      hmax_s, order_rect_three, hmax_d]
    norm_num [collinearQuad, mkQuad_zero, mkQuad_one, mkQuad_two,
      mkQuad_three, Prod.ext_iff]

/-! ## Claim C5 -/

/-- The difference key as the spec and the claim state it: `x - y`. -/
def diffXY (p : Point) : ℝ := p.1 - p.2

/-- The corner ordering as the claim words it (TL minimises `x+y`, BR
maximises `x+y`, TR minimises `x-y`, BL maximises `x-y`), stated from
the spec's words for comparison with the source's `order_rect`. -/
noncomputable def claimed_order_rect (pts : Fin 4 → Point) : Fin 4 → Point :=
  fun j =>
    match j with
    | ⟨0, _⟩ => pts (argmin4 (fun i => sumXY (pts i)))
    | ⟨1, _⟩ => pts (argmin4 (fun i => diffXY (pts i)))
    | ⟨2, _⟩ => pts (argmax4 (fun i => sumXY (pts i)))
    | ⟨3, _⟩ => pts (argmax4 (fun i => diffXY (pts i)))

/-- The axis-aligned unit square, corners listed TL, TR, BR, BL (in
image coordinates, `y` growing downwards). -/
def unitSquare : Fin 4 → Point :=
  mkQuad ((0 : ℝ), 0) ((1 : ℝ), 0) ((1 : ℝ), 1) ((0 : ℝ), 1)

/-- **C5, counterexample.** On the unit square the code's top-right
corner is `(1,0)`, which does **not** minimise `x - y`: the point
`(0,1)` has a strictly smaller `x - y`.  (`np.diff` computes `y - x`,
so the code's `rect[1]` maximises `x - y`; the claimed characterisation
`TR = argmin(x-y)` would instead return `(0,1)`.) -/
theorem order_rect_tr_not_min_xy :
    order_rect unitSquare 1 = ((1 : ℝ), 0) ∧
    claimed_order_rect unitSquare 1 = ((0 : ℝ), 1) ∧
    diffXY (unitSquare 3) < diffXY (order_rect unitSquare 1) ∧
    order_rect unitSquare 1 ≠ claimed_order_rect unitSquare 1 := by
  have hmin_d : argmin4 (fun i => diffYX (unitSquare i)) = 1 := by
    apply argmin4_eq_of_lt
    intro j hj
    rcases fin4_cases j with rfl | rfl | rfl | rfl <;>
      first
      | exact absurd rfl hj
      | norm_num [unitSquare, mkQuad_zero, mkQuad_one, mkQuad_two,
          mkQuad_three, diffYX]
  have hmin_d' : argmin4 (fun i => diffXY (unitSquare i)) = 3 := by
    apply argmin4_eq_of_lt
    intro j hj
    rcases fin4_cases j with rfl | rfl | rfl | rfl <;>
      first
      | exact absurd rfl hj
      | norm_num [unitSquare, mkQuad_zero, mkQuad_one, mkQuad_two,
          mkQuad_three, diffXY]
  have h1 : order_rect unitSquare 1 = ((1 : ℝ), 0) := by
    rw [order_rect_one, hmin_d]
    norm_num [unitSquare, mkQuad_one]
  have h2 : claimed_order_rect unitSquare 1 = ((0 : ℝ), 1) := by
    show unitSquare (argmin4 (fun i => diffXY (unitSquare i))) = _
    rw [hmin_d']
    norm_num [unitSquare, mkQuad_three]
  refine ⟨h1, h2, ?_, ?_⟩
  · rw [h1]
    norm_num [unitSquare, mkQuad_three, diffXY]
  · rw [h1, h2]
    norm_num [Prod.ext_iff]

/-- **C5, amended.** When the four coordinate sums are pairwise
distinct and the four coordinate differences are pairwise distinct (no
ties, the claim's non-degenerate case), `order_rect` returns the same
output under any permutation of its 4 input points; its entry 0 (TL)
minimises `x+y`, entry 2 (BR) maximises `x+y`, entry 1 (TR)
**maximises** `x-y` (not minimises, as claimed), and entry 3 (BL)
**minimises** `x-y`. -/
theorem order_rect_perm_invariant (pts : Fin 4 → Point)
    (σ : Equiv.Perm (Fin 4))
    (hs : ∀ i j, sumXY (pts i) = sumXY (pts j) → i = j)
    (hd : ∀ i j, diffYX (pts i) = diffYX (pts j) → i = j) :
    order_rect (fun i => pts (σ i)) = order_rect pts ∧
    (∀ j, sumXY (order_rect pts 0) ≤ sumXY (pts j)) ∧
    (∀ j, diffXY (pts j) ≤ diffXY (order_rect pts 1)) ∧
    (∀ j, sumXY (pts j) ≤ sumXY (order_rect pts 2)) ∧
    (∀ j, diffXY (order_rect pts 3) ≤ diffXY (pts j)) := by
  refine ⟨?_, ?_, ?_, ?_, ?_⟩
  · funext j
    rcases fin4_cases j with rfl | rfl | rfl | rfl
    · rw [order_rect_zero, order_rect_zero]
      show pts (σ (argmin4 (fun i => sumXY (pts (σ i))))) = _
      exact congrArg pts (argmin4_comp_perm (fun i => sumXY (pts i)) σ hs)
    · rw [order_rect_one, order_rect_one]
      show pts (σ (argmin4 (fun i => diffYX (pts (σ i))))) = _
      exact congrArg pts (argmin4_comp_perm (fun i => diffYX (pts i)) σ hd)
    · rw [order_rect_two, order_rect_two]
      show pts (σ (argmax4 (fun i => sumXY (pts (σ i))))) = _
      exact congrArg pts (argmax4_comp_perm (fun i => sumXY (pts i)) σ hs)
    · rw [order_rect_three, order_rect_three]
      show pts (σ (argmax4 (fun i => diffYX (pts (σ i))))) = _
      exact congrArg pts (argmax4_comp_perm (fun i => diffYX (pts i)) σ hd)
  · intro j
    rw [order_rect_zero]
    exact argmin4_le (fun i => sumXY (pts i)) j
  · intro j
    rw [order_rect_one]
    have h := argmin4_le (fun i => diffYX (pts i)) j
    set k := argmin4 (fun i => diffYX (pts i)) with hk
    simp only [diffXY, diffYX] at h ⊢
    linarith
  · intro j
    rw [order_rect_two]
    exact le_argmax4 (fun i => sumXY (pts i)) j
  · intro j
    rw [order_rect_three]
    have h := le_argmax4 (fun i => diffYX (pts i)) j
    set k := argmax4 (fun i => diffYX (pts i)) with hk
    simp only [diffXY, diffYX] at h ⊢
    linarith

/-- A generic quadrilateral with pairwise-distinct sum and difference
keys, used to witness `order_rect_perm_invariant`. -/
def genericQuad : Fin 4 → Point :=
  mkQuad ((0 : ℝ), 0) ((2 : ℝ), 0) ((3 : ℝ), 2) ((1 : ℝ), 3)

/-- Witness for `order_rect_perm_invariant` at a concrete quadrilateral
and the transposition exchanging inputs 0 and 2. -/
theorem order_rect_perm_invariant_witness :
    order_rect (fun i => genericQuad ((Equiv.swap 0 2 : Equiv.Perm (Fin 4)) i)) =
      order_rect genericQuad ∧
    sumXY (order_rect genericQuad 0) ≤ sumXY (genericQuad 1) ∧
    diffXY (genericQuad 2) ≤ diffXY (order_rect genericQuad 1) ∧
    sumXY (genericQuad 3) ≤ sumXY (order_rect genericQuad 2) ∧
    diffXY (order_rect genericQuad 3) ≤ diffXY (genericQuad 0) := by
  obtain ⟨ha, hb, hc, hd', he⟩ :=
    order_rect_perm_invariant genericQuad (Equiv.swap 0 2)
      (by
        intro i j h
        rcases fin4_cases i with rfl | rfl | rfl | rfl <;>
          rcases fin4_cases j with rfl | rfl | rfl | rfl <;>
          first
          | rfl
          | (exfalso
             norm_num [genericQuad, mkQuad_zero, mkQuad_one, mkQuad_two,
               mkQuad_three, sumXY] at h))
      (by
        intro i j h
        rcases fin4_cases i with rfl | rfl | rfl | rfl <;>
          rcases fin4_cases j with rfl | rfl | rfl | rfl <;>
          first
          | rfl
          | (exfalso
             norm_num [genericQuad, mkQuad_zero, mkQuad_one, mkQuad_two,
               mkQuad_three, diffYX] at h))
  exact ⟨ha, hb 1, hc 2, hd' 3, he 0⟩

/-! ## Claim C3 -/

/-- **C3.** The contour scan loop: (1) when it selects a contour, that
contour's 4-vertex approximation is returned as `screenCnt`, the
contour qualifies (exactly 4 approximated vertices and approximated
area strictly above `thr * imgArea`), and no candidate of strictly
larger enclosed area qualifies (the scan runs in descending area order
and stops at the first success); (2) it returns none exactly when no
candidate qualifies; (3) a candidate whose approximated area equals
`thr * imgArea` exactly never qualifies (strict `>`). -/
theorem detector_first_largest_qualifying
    (approxFn : List (ℚ × ℚ) → List (ℚ × ℚ))
    (contours : List (List (ℚ × ℚ))) (thr imgArea : ℚ) :
    (∀ c, selectContour approxFn contours thr imgArea = some c →
      Qualifies approxFn thr imgArea c ∧ c ∈ contours ∧
      findDocContour approxFn contours thr imgArea = some (approxFn c) ∧
      ∀ d ∈ contours, contourArea c < contourArea d →
        ¬ Qualifies approxFn thr imgArea d) ∧
    (selectContour approxFn contours thr imgArea = none ↔
      ∀ c ∈ contours, ¬ Qualifies approxFn thr imgArea c) ∧
    (∀ c, contourArea (approxFn c) = thr * imgArea →
      ¬ Qualifies approxFn thr imgArea c) := by
  have hperm := List.perm_insertionSort areaDesc contours
  have hsorted := List.sorted_insertionSort areaDesc contours
  refine ⟨?_, ?_, ?_⟩
  · intro c hc
    have hc' := hc
    rw [selectContour] at hc'
    have hq0 := List.find?_some hc'
    simp only [decide_eq_true_eq] at hq0
    have hq : Qualifies approxFn thr imgArea c := hq0
    have hmem : c ∈ contours := hperm.mem_iff.mp (List.mem_of_find?_eq_some hc')
    refine ⟨hq, hmem, ?_, ?_⟩
    · rw [findDocContour, hc]
      rfl
    · intro d hd hlt hqd
      obtain ⟨-, l₁, l₂, hsplit, hfail⟩ := find?_some_split _ _ _ hc'
      have hd' : d ∈ l₁ ++ c :: l₂ := by
        rw [← hsplit]
        exact hperm.mem_iff.mpr hd
      rcases List.mem_append.mp hd' with hd₁ | hd₂
      · exact absurd hqd (of_decide_eq_false (hfail d hd₁))
      · rcases List.mem_cons.mp hd₂ with rfl | hd₃
        · exact absurd hlt (lt_irrefl _)
        · have hpair : List.Pairwise areaDesc (l₁ ++ c :: l₂) := by
            rw [← hsplit]
            exact hsorted
          have hrel : areaDesc c d :=
            List.rel_of_pairwise_cons (List.pairwise_append.mp hpair).2.1 hd₃
          exact absurd hlt (not_lt.2 hrel)
  · rw [selectContour, List.find?_eq_none]
    constructor
    · intro h c hmem
      have := h c (hperm.mem_iff.mpr hmem)
      simpa using this
    · intro h c hmem
      have := h c (hperm.mem_iff.mp hmem)
      simpa using this
  · intro c heq hq
    obtain ⟨-, hlt⟩ := hq
    rw [heq] at hlt
    exact lt_irrefl _ hlt

/-- A 5-vertex candidate of area 100 (a rectangle with one extra
collinear vertex): largest, but not a quadrilateral. -/
def bigPentagon : List (ℚ × ℚ) := [(0, 0), (20, 0), (20, 5), (10, 5), (0, 5)]

/-- A 4-vertex candidate of area exactly `0.4 × 100`. -/
def exactRect : List (ℚ × ℚ) := [(0, 0), (40, 0), (40, 1), (0, 1)]

/-- A 4-vertex candidate of area 41, strictly above the threshold. -/
def okRect : List (ℚ × ℚ) := [(0, 0), (41, 0), (41, 1), (0, 1)]

/-- Witness for `detector_first_largest_qualifying`: with threshold
0.4 on a 100-pixel image, the 5-vertex area-100 candidate is skipped,
the area-41 quadrilateral is selected, and the area-40 quadrilateral
sitting exactly on the threshold is rejected. -/
theorem detector_first_largest_qualifying_witness :
    Qualifies id (2/5) 100 okRect ∧
    okRect ∈ [bigPentagon, exactRect, okRect] ∧
    findDocContour id [bigPentagon, exactRect, okRect] (2/5) 100 =
      some (id okRect) ∧
    ¬ Qualifies id (2/5) 100 bigPentagon ∧
    ¬ Qualifies id (2/5) 100 exactRect := by
  obtain ⟨h1, h2, h3, h4⟩ :=
    (detector_first_largest_qualifying id [bigPentagon, exactRect, okRect]
      (2/5) 100).1 okRect
      (by
        norm_num [selectContour, List.insertionSort, List.orderedInsert,
          areaDesc, contourArea, shoelace, List.rotate, bigPentagon,
          exactRect, okRect, List.find?, Qualifies])
  refine ⟨h1, h2, h3,
    h4 bigPentagon (by simp)
      (by norm_num [contourArea, shoelace, List.rotate, bigPentagon, okRect]),
    ?_⟩
  exact (detector_first_largest_qualifying id [bigPentagon, exactRect, okRect]
    (2/5) 100).2.2 exactRect
    (by norm_num [contourArea, shoelace, List.rotate, exactRect])

/-! ## Claim C7 -/

/-- **C7.** When the detector finds no qualifying quadrilateral,
the rectifier stage returns the original input image unchanged, and
the buffer handed to the enhancement stage is exactly the pipeline's
input image. -/
theorem rectify_fallback_identity (ops : CVOps) (image : Image) (thr : ℚ)
    (f : ℕ) (h : detectDoc ops image thr = none) :
    rectify ops image thr = image ∧
    process_image_cv ops image thr f = enhanceStage ops image f := by
  have hr : rectify ops image thr = image := by
    unfold rectify
    rw [h]
  exact ⟨hr, by rw [process_image_cv, hr]⟩

/-- Kernels whose contour extractor finds nothing — the model of an
all-black, textureless image, where `cv2.Canny` produces an empty edge
map and `cv2.findContours` returns no boundaries. -/
def emptyOps : CVOps :=
  ⟨fun _ _ => 0, fun _ _ => 0, fun _ => [], id, fun _ _ _ => 0,
    fun _ _ _ => 0, fun _ _ => 0, fun _ _ => 0⟩

/-- A concrete 11×10 3-channel all-black input image. -/
def sampleImage : Image := ⟨11, 10, 3, fun _ => 0⟩

/-- Witness for `rectify_fallback_identity`: on the all-black image
with no contours, detection yields none and the rectifier passes the
buffer through unchanged. -/
theorem rectify_fallback_identity_witness :
    rectify emptyOps sampleImage (2/5) = sampleImage ∧
    process_image_cv emptyOps sampleImage (2/5) 2 =
      enhanceStage emptyOps sampleImage 2 :=
  rectify_fallback_identity emptyOps sampleImage (2/5) 2 rfl

/-! ## Claim C6 -/

/-- **C6.** For every input image, configuration and resampling
kernels, the pipeline's output is single-channel, every output pixel is
exactly 0 or 255, and the output dimensions are `upscale_factor` times
the rectified image's width and height. -/
theorem enhancer_binary_single_channel (ops : CVOps) (image : Image)
    (thr : ℚ) (f : ℕ) :
    (process_image_cv ops image thr f).channels = 1 ∧
    (∀ i, (process_image_cv ops image thr f).data i = 0 ∨
      (process_image_cv ops image thr f).data i = 255) ∧
    (process_image_cv ops image thr f).width =
      f * (rectify ops image thr).width ∧
    (process_image_cv ops image thr f).height =
      f * (rectify ops image thr).height :=
  ⟨rfl, fun i => enhanceStage_binary ops (rectify ops image thr) f i, rfl, rfl⟩

/-! ## Claim C1 -/

lemma distance_self (p : Point) : distance p p = 0 := by
  simp [distance]

/-- **C1, amended.** The pipeline performs no degeneracy detection:
whenever the detector selects a quadrilateral, the warp is applied to
it unconditionally — the fallback to the original image depends only on
`screenCnt` being `None`, never on the warp target being degenerate. -/
theorem warp_applied_without_degeneracy_check (ops : CVOps) (image : Image)
    (thr : ℚ) (f : ℕ) (q : List (ℚ × ℚ))
    (h : detectDoc ops image thr = some q) :
    rectify ops image thr = four_point_transform ops image (quadToPts q) ∧
    process_image_cv ops image thr f =
      enhanceStage ops (four_point_transform ops image (quadToPts q)) f := by
  have hr : rectify ops image thr =
      four_point_transform ops image (quadToPts q) := by
    unfold rectify
    rw [h]
  exact ⟨hr, by rw [process_image_cv, hr]⟩

/-- A convex quadrilateral (diamond orientation, slightly perturbed off
the symmetric case) on which `order_rect` assigns one point to both TL
and BL and another to both TR and BR, so the warp target height is 0.
Its enclosed area is 46.6, which exceeds `0.4 × 110`, the threshold for
the 11×10 image below, so the detector selects it. -/
def degenQuad : List (ℚ × ℚ) := [(0, 6), (4, 99/10), (10, 4), (59/10, 1/5)]

/-- Kernels whose contour extractor reports exactly `degenQuad` (and
whose polygon approximation keeps it unchanged). -/
def degenOps : CVOps :=
  ⟨fun _ _ => 0, fun _ _ => 0, fun _ => [degenQuad], id, fun _ _ _ => 0,
    fun _ _ _ => 0, fun _ _ => 0, fun _ _ => 0⟩

/-- **C1, counterexample.** A qualifying quadrilateral whose warp
target is degenerate is *not* treated as "no usable quadrilateral": the
detector selects it, the warp runs, and the pipeline emits a zero-area
output image (height 0) instead of falling back to the 11×10 original
(whose pass-through output height would be 20). -/
theorem degenerate_quad_zero_area_output :
    detectDoc degenOps sampleImage (2/5) = some degenQuad ∧
    (process_image_cv degenOps sampleImage (2/5) 2).height = 0 ∧
    2 * sampleImage.height = 20 := by
  have hdet : detectDoc degenOps sampleImage (2/5) = some degenQuad := by
    norm_num [detectDoc, findDocContour, selectContour, gaussianBlur, canny,
      degenOps, sampleImage, List.insertionSort, List.orderedInsert, areaDesc,
      Qualifies, contourArea, shoelace, List.rotate, degenQuad, List.find?]
    rw [abs_of_nonneg (by norm_num : (0 : ℚ) ≤ 466 / 5)]
    norm_num
  have e0 : quadToPts degenQuad 0 = (((0 : ℚ) : ℝ), ((6 : ℚ) : ℝ)) := rfl
  have e1 : quadToPts degenQuad 1 = (((4 : ℚ) : ℝ), ((99/10 : ℚ) : ℝ)) := rfl
  have e2 : quadToPts degenQuad 2 = (((10 : ℚ) : ℝ), ((4 : ℚ) : ℝ)) := rfl
  have e3 : quadToPts degenQuad 3 = (((59/10 : ℚ) : ℝ), ((1/5 : ℚ) : ℝ)) := rfl
  have hmind : argmin4 (fun i => diffYX (quadToPts degenQuad i)) = 2 := by
    apply argmin4_eq_of_lt
    intro j hj
    rcases fin4_cases j with rfl | rfl | rfl | rfl <;>
      first
      | exact absurd rfl hj
      | norm_num [e0, e1, e2, e3, diffYX]
  have hmaxs : argmax4 (fun i => sumXY (quadToPts degenQuad i)) = 2 := by
    apply argmax4_eq_of_lt
    intro j hj
    rcases fin4_cases j with rfl | rfl | rfl | rfl <;>
      first
      | exact absurd rfl hj
      | norm_num [e0, e1, e2, e3, sumXY]
  have hmins : argmin4 (fun i => sumXY (quadToPts degenQuad i)) = 0 := by
    apply argmin4_eq_of_lt
    intro j hj
    rcases fin4_cases j with rfl | rfl | rfl | rfl <;>
      first
      | exact absurd rfl hj
      | norm_num [e0, e1, e2, e3, sumXY]
  have hmaxd : argmax4 (fun i => diffYX (quadToPts degenQuad i)) = 0 := by
    apply argmax4_eq_of_lt
    intro j hj
    rcases fin4_cases j with rfl | rfl | rfl | rfl <;>
      first
      | exact absurd rfl hj
      | norm_num [e0, e1, e2, e3, diffYX]
  have hheight :
      (four_point_transform degenOps sampleImage (quadToPts degenQuad)).height
        = 0 := by
    show (⌊max (distance (order_rect (quadToPts degenQuad) 1)
        (order_rect (quadToPts degenQuad) 2))
        (distance (order_rect (quadToPts degenQuad) 0)
        (order_rect (quadToPts degenQuad) 3))⌋).toNat = 0
    rw [order_rect_one, order_rect_two, order_rect_zero, order_rect_three,
      hmind, hmaxs, hmins, hmaxd, distance_self, distance_self]
    norm_num
  refine ⟨hdet, ?_, rfl⟩
  have hp : process_image_cv degenOps sampleImage (2/5) 2 =
      enhanceStage degenOps
        (four_point_transform degenOps sampleImage (quadToPts degenQuad)) 2 := by
    rw [process_image_cv]
    congr 1
    unfold rectify
    rw [hdet]
  rw [hp, enhanceStage_height, hheight]

/-- Witness for `warp_applied_without_degeneracy_check`: a concrete
run in which the detector selects a quadrilateral and the pipeline
output is the enhancement of the warp, not of the original image. -/
theorem warp_applied_without_degeneracy_check_witness :
    rectify degenOps sampleImage (2/5) =
      four_point_transform degenOps sampleImage (quadToPts degenQuad) ∧
    process_image_cv degenOps sampleImage (2/5) 2 =
      enhanceStage degenOps
        (four_point_transform degenOps sampleImage (quadToPts degenQuad)) 2 :=
  warp_applied_without_degeneracy_check degenOps sampleImage (2/5) 2 degenQuad
    (by
      norm_num [detectDoc, findDocContour, selectContour, gaussianBlur, canny,
        degenOps, sampleImage, List.insertionSort, List.orderedInsert,
        areaDesc, Qualifies, contourArea, shoelace, List.rotate, degenQuad,
        List.find?]
      rw [abs_of_nonneg (by norm_num : (0 : ℚ) ≤ 466 / 5)]
      norm_num)

/-! ## Claims C2 and C8 -/

/-- An axis-aligned 12×12 square contour of area 144. -/
def hugeQuad : List (ℚ × ℚ) := [(0, 0), (12, 0), (12, 12), (0, 12)]

/-- Kernels whose contour extractor reports exactly `hugeQuad`. -/
def squareOps : CVOps :=
  ⟨fun _ _ => 0, fun _ _ => 0, fun _ => [hugeQuad], id, fun _ _ _ => 0,
    fun _ _ _ => 0, fun _ _ => 0, fun _ _ => 0⟩

/-- Evaluating the warp target of the 12×12 square: a 12×12 buffer. -/
lemma hugeQuad_warp_dims (ops : CVOps) (image : Image) :
    (four_point_transform ops image (quadToPts hugeQuad)).width = 12 ∧
    (four_point_transform ops image (quadToPts hugeQuad)).height = 12 := by
  have e0 : quadToPts hugeQuad 0 = (((0 : ℚ) : ℝ), ((0 : ℚ) : ℝ)) := rfl
  have e1 : quadToPts hugeQuad 1 = (((12 : ℚ) : ℝ), ((0 : ℚ) : ℝ)) := rfl
  have e2 : quadToPts hugeQuad 2 = (((12 : ℚ) : ℝ), ((12 : ℚ) : ℝ)) := rfl
  have e3 : quadToPts hugeQuad 3 = (((0 : ℚ) : ℝ), ((12 : ℚ) : ℝ)) := rfl
  have hmins : argmin4 (fun i => sumXY (quadToPts hugeQuad i)) = 0 := by
    apply argmin4_eq_of_lt
    intro j hj
    rcases fin4_cases j with rfl | rfl | rfl | rfl <;>
      first
      | exact absurd rfl hj
      | norm_num [e0, e1, e2, e3, sumXY]
  have hmaxs : argmax4 (fun i => sumXY (quadToPts hugeQuad i)) = 2 := by
    apply argmax4_eq_of_lt
    intro j hj
    rcases fin4_cases j with rfl | rfl | rfl | rfl <;>
      first
      | exact absurd rfl hj
      | norm_num [e0, e1, e2, e3, sumXY]
  have hmind : argmin4 (fun i => diffYX (quadToPts hugeQuad i)) = 1 := by
    apply argmin4_eq_of_lt
    intro j hj
    rcases fin4_cases j with rfl | rfl | rfl | rfl <;>
      first
      | exact absurd rfl hj
      | norm_num [e0, e1, e2, e3, diffYX]
  have hmaxd : argmax4 (fun i => diffYX (quadToPts hugeQuad i)) = 3 := by
    apply argmax4_eq_of_lt
    intro j hj
    rcases fin4_cases j with rfl | rfl | rfl | rfl <;>
      first
      | exact absurd rfl hj
      | norm_num [e0, e1, e2, e3, diffYX]
  constructor
  · show (⌊max (distance (order_rect (quadToPts hugeQuad) 2)
        (order_rect (quadToPts hugeQuad) 3))
        (distance (order_rect (quadToPts hugeQuad) 1)
        (order_rect (quadToPts hugeQuad) 0))⌋).toNat = 12
    rw [order_rect_two, order_rect_three, order_rect_one, order_rect_zero,
      hmaxs, hmaxd, hmind, hmins, e2, e3, e1, e0]
    rw [distance_eq _ _ 12 (by norm_num) (by push_cast; norm_num),
      distance_eq _ _ 12 (by norm_num) (by push_cast; norm_num)]
    norm_num
    rfl
  · show (⌊max (distance (order_rect (quadToPts hugeQuad) 1)
        (order_rect (quadToPts hugeQuad) 2))
        (distance (order_rect (quadToPts hugeQuad) 0)
        (order_rect (quadToPts hugeQuad) 3))⌋).toNat = 12
    rw [order_rect_one, order_rect_two, order_rect_zero, order_rect_three,
      hmind, hmaxs, hmins, hmaxd, e1, e2, e0, e3]
    rw [distance_eq _ _ 12 (by norm_num) (by push_cast; norm_num),
      distance_eq _ _ 12 (by norm_num) (by push_cast; norm_num)]
    norm_num
    rfl

/-- A concrete 5×4 3-channel image (area 20 pixels). -/
def smallImage : Image := ⟨5, 4, 3, fun _ => 0⟩

/-- **C2, counterexample.** With `area_threshold_ratio = 7` and
`upscale_factor = 9` — both far outside the documented bounds — the CLI
validation would reject, but `process_image_cv` itself performs no
check: detection runs (it selects the square contour, whose area 144
exceeds `7 × 20`), the warp runs, and the enhancer emits a normal
`9 × 12` wide single-channel output instead of any rejection. -/
theorem out_of_range_config_not_rejected :
    validateArgs 7 9 95 = false ∧
    detectDoc squareOps smallImage 7 = some hugeQuad ∧
    (process_image_cv squareOps smallImage 7 9).width = 108 ∧
    (process_image_cv squareOps smallImage 7 9).channels = 1 := by
  have hval : validateArgs 7 9 95 = false := by
    norm_num [validateArgs]
  have hdet : detectDoc squareOps smallImage 7 = some hugeQuad := by
    norm_num [detectDoc, findDocContour, selectContour, gaussianBlur, canny,
      squareOps, smallImage, List.insertionSort, List.orderedInsert, areaDesc,
      Qualifies, contourArea, shoelace, List.rotate, hugeQuad, List.find?]
  have hp : process_image_cv squareOps smallImage 7 9 =
      enhanceStage squareOps
        (four_point_transform squareOps smallImage (quadToPts hugeQuad)) 9 := by
    rw [process_image_cv]
    congr 1
    unfold rectify
    rw [hdet]
  refine ⟨hval, hdet, ?_, ?_⟩
  · rw [hp, enhanceStage_width, (hugeQuad_warp_dims squareOps smallImage).1]
  · rw [hp]
    exact enhanceStage_channels _ _ _

/-- **C2, amended.** The configuration bounds are enforced only by the
CLI entry point `main` (modelled by `validateArgs`); the core
`process_image_cv` performs no validation and produces a normal
pipeline output for every configuration value, in or out of range. -/
theorem config_validated_only_in_cli (thr : ℚ) (up quality : ℤ)
    (ops : CVOps) (image : Image) (f : ℕ) :
    (validateArgs thr up quality = true ↔
      ((1/10 ≤ thr ∧ thr ≤ 1) ∧ (1 ≤ up ∧ up ≤ 5) ∧
        (1 ≤ quality ∧ quality ≤ 100))) ∧
    (process_image_cv ops image thr f).width =
      f * (rectify ops image thr).width ∧
    (process_image_cv ops image thr f).height =
      f * (rectify ops image thr).height ∧
    (process_image_cv ops image thr f).channels = 1 := by
  refine ⟨?_, rfl, rfl, rfl⟩
  simp only [validateArgs, Bool.and_eq_true, decide_eq_true_eq, and_assoc]

/-- A zero-dimension (0×0) buffer. -/
def zeroImage : Image := ⟨0, 0, 3, fun _ => 0⟩

/-- **C8, counterexample.** The core does not reject the zero-dimension
buffer: with the 0×0 image the area threshold degenerates to 0, the
detector runs and even *selects* a quadrilateral, the warp and the
enhancer run, and a normal 24-wide single-channel image is produced —
there is no immediate `InvalidInput` rejection and plenty of
computation happens. -/
theorem zero_dim_image_not_rejected :
    zeroImage.width = 0 ∧ zeroImage.height = 0 ∧
    detectDoc squareOps zeroImage (2/5) = some hugeQuad ∧
    (process_image_cv squareOps zeroImage (2/5) 2).width = 24 ∧
    (process_image_cv squareOps zeroImage (2/5) 2).channels = 1 := by
  have hdet : detectDoc squareOps zeroImage (2/5) = some hugeQuad := by
    norm_num [detectDoc, findDocContour, selectContour, gaussianBlur, canny,
      squareOps, zeroImage, List.insertionSort, List.orderedInsert, areaDesc,
      Qualifies, contourArea, shoelace, List.rotate, hugeQuad, List.find?]
  have hp : process_image_cv squareOps zeroImage (2/5) 2 =
      enhanceStage squareOps
        (four_point_transform squareOps zeroImage (quadToPts hugeQuad)) 2 := by
    rw [process_image_cv]
    congr 1
    unfold rectify
    rw [hdet]
  refine ⟨rfl, rfl, hdet, ?_, ?_⟩
  · rw [hp, enhanceStage_width, (hugeQuad_warp_dims squareOps zeroImage).1]
  · rw [hp]
    exact enhanceStage_channels _ _ _

/-- **C8, amended.** `process_image_cv` performs no input validation:
the zero-dimension buffer enters the pipeline unconditionally, and on
it the detector's area threshold degenerates to `area > 0`, so any
positive-area 4-vertex candidate passes. -/
theorem zero_dim_image_enters_pipeline (ops : CVOps) (thr : ℚ) (f : ℕ) :
    process_image_cv ops zeroImage thr f =
      enhanceStage ops (rectify ops zeroImage thr) f ∧
    (∀ approxFn c,
      Qualifies approxFn thr
          ((zeroImage.height : ℚ) * (zeroImage.width : ℚ)) c ↔
        ((approxFn c).length = 4 ∧ 0 < contourArea (approxFn c))) := by
  refine ⟨rfl, ?_⟩
  intro approxFn c
  simp [Qualifies, zeroImage]

/-! ## Claim C4 -/

/-- The target width as the claim words it: `round` of the larger of
the two horizontal edge lengths.  Stated from the spec's words for
comparison with the truncation the code performs. -/
noncomputable def claimed_target_width (pts : Fin 4 → Point) : ℤ :=
  round (max (distance (order_rect pts 2) (order_rect pts 3))
    (distance (order_rect pts 1) (order_rect pts 0)))

/-- A square rotated off-axis whose four edges all have length
`√6.5 ≈ 2.5495`, listed in the order TL, TR, BR, BL. -/
noncomputable def tiltedSquare : Fin 4 → Point :=
  mkQuad ((0 : ℝ), 1) ((5/2 : ℝ), (1/2 : ℝ)) ((3 : ℝ), 3) ((1/2 : ℝ), (7/2 : ℝ))

/-- **C4, counterexample.** The code truncates (`int(...)`), it does
not round: on a square with edge length `√6.5 ≈ 2.5495` the output
buffer is 2 pixels wide, while `round(max(dist(BR,BL), dist(TR,TL)))`
is 3. -/
theorem target_width_truncated_not_rounded :
    (four_point_transform emptyOps sampleImage tiltedSquare).width = 2 ∧
    claimed_target_width tiltedSquare = 3 ∧
    ((four_point_transform emptyOps sampleImage tiltedSquare).width : ℤ) ≠
      claimed_target_width tiltedSquare := by
  have hmins : argmin4 (fun i => sumXY (tiltedSquare i)) = 0 := by
    apply argmin4_eq_of_lt
    intro j hj
    rcases fin4_cases j with rfl | rfl | rfl | rfl <;>
      first
      | exact absurd rfl hj
      | norm_num [tiltedSquare, mkQuad_zero, mkQuad_one, mkQuad_two,
          mkQuad_three, sumXY]
  have hmaxs : argmax4 (fun i => sumXY (tiltedSquare i)) = 2 := by
    apply argmax4_eq_of_lt
    intro j hj
    rcases fin4_cases j with rfl | rfl | rfl | rfl <;>
      first
      | exact absurd rfl hj
      | norm_num [tiltedSquare, mkQuad_zero, mkQuad_one, mkQuad_two,
          mkQuad_three, sumXY]
  have hmind : argmin4 (fun i => diffYX (tiltedSquare i)) = 1 := by
    apply argmin4_eq_of_lt
    intro j hj
    rcases fin4_cases j with rfl | rfl | rfl | rfl <;>
      first
      | exact absurd rfl hj
      | norm_num [tiltedSquare, mkQuad_zero, mkQuad_one, mkQuad_two,
          mkQuad_three, diffYX]
  have hmaxd : argmax4 (fun i => diffYX (tiltedSquare i)) = 3 := by
    apply argmax4_eq_of_lt
    intro j hj
    rcases fin4_cases j with rfl | rfl | rfl | rfl <;>
      first
      | exact absurd rfl hj
      | norm_num [tiltedSquare, mkQuad_zero, mkQuad_one, mkQuad_two,
          mkQuad_three, diffYX]
  have hbot : distance (order_rect tiltedSquare 2) (order_rect tiltedSquare 3)
      = Real.sqrt (13/2) := by
    rw [order_rect_two, order_rect_three, hmaxs, hmaxd]
    rw [distance]
    norm_num [tiltedSquare, mkQuad_two, mkQuad_three]
  have htop : distance (order_rect tiltedSquare 1) (order_rect tiltedSquare 0)
      = Real.sqrt (13/2) := by
    rw [order_rect_one, order_rect_zero, hmind, hmins]
    rw [distance]
    norm_num [tiltedSquare, mkQuad_one, mkQuad_zero]
  have hle : (2 : ℝ) ≤ Real.sqrt (13/2) :=
    (Real.le_sqrt (by norm_num) (by norm_num)).mpr (by norm_num)
  have hlt : Real.sqrt (13/2) < 3 :=
    (Real.sqrt_lt' (by norm_num)).mpr (by norm_num)
  have hhalf : (5/2 : ℝ) < Real.sqrt (13/2) :=
    (Real.lt_sqrt (by norm_num)).mpr (by norm_num)
  have hwidth : (four_point_transform emptyOps sampleImage tiltedSquare).width
      = 2 := by
    show (⌊max (distance (order_rect tiltedSquare 2) (order_rect tiltedSquare 3))
        (distance (order_rect tiltedSquare 1) (order_rect tiltedSquare 0))⌋).toNat
        = 2
    rw [hbot, htop, max_self]
    have hfl : ⌊Real.sqrt (13/2)⌋ = (2 : ℤ) := by
      rw [Int.floor_eq_iff]
      constructor
      · exact_mod_cast hle
      · exact_mod_cast hlt
    rw [hfl]
    rfl
  have hclaimed : claimed_target_width tiltedSquare = 3 := by
    rw [claimed_target_width, hbot, htop, max_self, round_eq]
    rw [Int.floor_eq_iff]
    constructor
    · push_cast
      linarith
    · push_cast
      linarith
  refine ⟨hwidth, hclaimed, ?_⟩
  rw [hwidth, hclaimed]
  norm_num

/-- **C4, amended.** The warp computes
`targetWidth = int(max(dist(BR,BL), dist(TR,TL)))` and
`targetHeight = int(max(dist(TR,BR), dist(TL,BL)))` — truncation, not
rounding — and the output buffer has exactly those dimensions; for a
quadrilateral whose ordered edges measure top 100, bottom 120, right
90 and left 80, the output is exactly 120 wide and 90 high. -/
theorem warp_target_dims_truncated (ops : CVOps) (image : Image)
    (pts : Fin 4 → Point)
    (htop : distance (order_rect pts 1) (order_rect pts 0) = 100)
    (hbot : distance (order_rect pts 2) (order_rect pts 3) = 120)
    (hright : distance (order_rect pts 1) (order_rect pts 2) = 90)
    (hleft : distance (order_rect pts 0) (order_rect pts 3) = 80) :
    (four_point_transform ops image pts).width = 120 ∧
    (four_point_transform ops image pts).height = 90 ∧
    ∀ qts : Fin 4 → Point,
      (four_point_transform ops image qts).width =
        (⌊max (distance (order_rect qts 2) (order_rect qts 3))
            (distance (order_rect qts 1) (order_rect qts 0))⌋).toNat ∧
      (four_point_transform ops image qts).height =
        (⌊max (distance (order_rect qts 1) (order_rect qts 2))
            (distance (order_rect qts 0) (order_rect qts 3))⌋).toNat := by
  refine ⟨?_, ?_, fun qts => ⟨rfl, rfl⟩⟩
  · show (⌊max (distance (order_rect pts 2) (order_rect pts 3))
        (distance (order_rect pts 1) (order_rect pts 0))⌋).toNat = 120
    rw [hbot, htop, max_eq_left (by norm_num : (100 : ℝ) ≤ 120)]
    norm_num
    rfl
  · show (⌊max (distance (order_rect pts 1) (order_rect pts 2))
        (distance (order_rect pts 0) (order_rect pts 3))⌋).toNat = 90
    rw [hright, hleft, max_eq_left (by norm_num : (80 : ℝ) ≤ 90)]
    norm_num
    rfl

/-- The vertical offset `√5343.75` of the witness trapezoid. -/
noncomputable def trapHeight : ℝ := Real.sqrt (21375 / 4)

/-- A quadrilateral with top edge 100, bottom edge 120, right edge 90
and left edge 80 (corners listed TL, TR, BR, BL). -/
noncomputable def trapezoid : Fin 4 → Point :=
  mkQuad ((0 : ℝ), 0) ((100 : ℝ), 0) ((305/2 : ℝ), trapHeight)
    ((65/2 : ℝ), trapHeight)

/-- Witness for `warp_target_dims_truncated` at a concrete
quadrilateral with the stated edge lengths. -/
theorem warp_target_dims_truncated_witness :
    (four_point_transform emptyOps sampleImage trapezoid).width = 120 ∧
    (four_point_transform emptyOps sampleImage trapezoid).height = 90 := by
  have h0 : (0 : ℝ) ≤ trapHeight := Real.sqrt_nonneg _
  have hsq : trapHeight ^ 2 = 21375 / 4 := Real.sq_sqrt (by norm_num)
  have hgt : (105/2 : ℝ) < trapHeight :=
    (Real.lt_sqrt (by norm_num)).mpr (by norm_num)
  have hmins : argmin4 (fun i => sumXY (trapezoid i)) = 0 := by
    apply argmin4_eq_of_lt
    intro j hj
    rcases fin4_cases j with rfl | rfl | rfl | rfl <;>
      first
      | exact absurd rfl hj
      | (simp only [trapezoid, mkQuad_zero, mkQuad_one, mkQuad_two,
          mkQuad_three, sumXY]
         linarith)
  have hmaxs : argmax4 (fun i => sumXY (trapezoid i)) = 2 := by
    apply argmax4_eq_of_lt
    intro j hj
    rcases fin4_cases j with rfl | rfl | rfl | rfl <;>
      first
      | exact absurd rfl hj
      | (simp only [trapezoid, mkQuad_zero, mkQuad_one, mkQuad_two,
          mkQuad_three, sumXY]
         linarith)
  have hmind : argmin4 (fun i => diffYX (trapezoid i)) = 1 := by
    apply argmin4_eq_of_lt
    intro j hj
    rcases fin4_cases j with rfl | rfl | rfl | rfl <;>
      first
      | exact absurd rfl hj
      | (simp only [trapezoid, mkQuad_zero, mkQuad_one, mkQuad_two,
          mkQuad_three, diffYX]
         linarith)
  have hmaxd : argmax4 (fun i => diffYX (trapezoid i)) = 3 := by
    apply argmax4_eq_of_lt
    intro j hj
    rcases fin4_cases j with rfl | rfl | rfl | rfl <;>
      first
      | exact absurd rfl hj
      | (simp only [trapezoid, mkQuad_zero, mkQuad_one, mkQuad_two,
          mkQuad_three, diffYX]
         linarith)
  have htop : distance (order_rect trapezoid 1) (order_rect trapezoid 0)
      = 100 := by
    rw [order_rect_one, order_rect_zero, hmind, hmins]
    exact distance_eq _ _ 100 (by norm_num)
      (by
        simp only [trapezoid, mkQuad_zero, mkQuad_one]
        norm_num)
  have hbot : distance (order_rect trapezoid 2) (order_rect trapezoid 3)
      = 120 := by
    rw [order_rect_two, order_rect_three, hmaxs, hmaxd]
    exact distance_eq _ _ 120 (by norm_num)
      (by
        simp only [trapezoid, mkQuad_two, mkQuad_three]
        norm_num)
  have hright : distance (order_rect trapezoid 1) (order_rect trapezoid 2)
      = 90 := by
    rw [order_rect_one, order_rect_two, hmind, hmaxs]
    exact distance_eq _ _ 90 (by norm_num)
      (by
        simp only [trapezoid, mkQuad_one, mkQuad_two]
        linear_combination hsq)
  have hleft : distance (order_rect trapezoid 0) (order_rect trapezoid 3)
      = 80 := by
    rw [order_rect_zero, order_rect_three, hmins, hmaxd]
    exact distance_eq _ _ 80 (by norm_num)
      (by
        simp only [trapezoid, mkQuad_zero, mkQuad_three]
        linear_combination hsq)
  obtain ⟨hw, hh, -⟩ := warp_target_dims_truncated emptyOps sampleImage
    trapezoid htop hbot hright hleft
  exact ⟨hw, hh⟩

/-! ## Claim C10 -/

/-- **C10.** `enhance_pdf_from_path` processes every page with the
fixed default configuration `area_threshold_ratio = 0.4` and
`upscale_factor = 2`: whatever the caller passes (only the paths and
`dpi` are parameters), each rasterised page goes through
`process_image_cv` with exactly these two constants, pages stay in
order, and each output page is a single-channel binary image. -/
theorem pdf_pipeline_fixed_config (pops : PDFOps) (ops : CVOps)
    (pdfPath outputPath : String) (dpi : ℕ) :
    (enhance_pdf_from_path pops ops pdfPath outputPath dpi).1 = outputPath ∧
    (enhance_pdf_from_path pops ops pdfPath outputPath dpi).2 =
      (pops.pdfToImages pdfPath dpi).map
        (fun img => process_image_cv ops img (2/5) 2) ∧
    ∀ page ∈ (enhance_pdf_from_path pops ops pdfPath outputPath dpi).2,
      page.channels = 1 ∧ ∀ i, page.data i = 0 ∨ page.data i = 255 := by
  refine ⟨rfl, rfl, ?_⟩
  intro page hp
  obtain ⟨img, -, rfl⟩ := List.mem_map.mp hp
  exact ⟨rfl, fun i => enhanceStage_binary ops (rectify ops img (2/5)) 2 i⟩

/-- A decoder producing a single rasterised page. -/
def onePagePDF : PDFOps := ⟨fun _ _ => [sampleImage]⟩

/-- Witness for `pdf_pipeline_fixed_config` on a one-page document. -/
theorem pdf_pipeline_fixed_config_witness :
    (enhance_pdf_from_path onePagePDF emptyOps "in" "out" 200).1 = "out" ∧
    (enhance_pdf_from_path onePagePDF emptyOps "in" "out" 200).2 =
      [process_image_cv emptyOps sampleImage (2/5) 2] ∧
    (process_image_cv emptyOps sampleImage (2/5) 2).channels = 1 ∧
    ((process_image_cv emptyOps sampleImage (2/5) 2).data 0 = 0 ∨
      (process_image_cv emptyOps sampleImage (2/5) 2).data 0 = 255) := by
  obtain ⟨h1, h2, h3⟩ :=
    pdf_pipeline_fixed_config onePagePDF emptyOps "in" "out" 200
  obtain ⟨hc, hb⟩ := h3 (process_image_cv emptyOps sampleImage (2/5) 2)
    (by rw [h2]; exact List.mem_singleton.mpr rfl)
  exact ⟨h1, h2, hc, hb 0⟩

end ScanPimping
